import Mathlib

/-!
Shallow embedding of the algorithmic core of the agentic project-management
workflow: the lexical routing scorer (`routing_agent.py`), the semantic
confidence calibration (`routing_agent_fixed.py`), the workflow selector and
step executor (`agentic_workflow.py`), and the bounded evaluation-correction
loop (`evaluation_agent_fixed.py`).

Python floats are modelled as exact rationals (the float computations under
scrutiny are short sums and one division, identical on both sides of every
compared equality); external collaborators (the LLM, the embedder, the
evaluator) are modelled as explicit function arguments.
-/

set_option maxRecDepth 100000

attribute [local semireducible] Rat.add Rat.mul Rat.sub Rat.inv

/-- Python's substring test `needle in hay` on strings. -/
def pyIn (needle hay : String) : Bool :=
  decide (needle.toList <:+: hay.toList)

/-- Python's `dict.get(key, default)` on an association list. -/
def dictGetD {α : Type} (d : List (String × α)) (k : String) (v : α) : α :=
  ((d.find? (fun p => p.1 == k)).map Prod.snd).getD v

/-! ## `WorkflowSupportFunctions.calculate_workflow_confidence`
(`agentic_workflow.py`, lines 38-49) -/

/-- `calculate_workflow_confidence(step_confidences)`: 0.0 on the empty list,
otherwise the weighted average with weight `i + 1` for the `i`-th (0-based)
step confidence. -/
def calculate_workflow_confidence (step_confidences : List ℚ) : ℚ :=
  if step_confidences.isEmpty then 0
  else
    let weights : List ℚ := (List.range step_confidences.length).map (fun i : ℕ => (i : ℚ) + 1)
    let weighted_sum := (List.zipWith (fun conf weight => conf * weight) step_confidences weights).sum
    let weight_sum := weights.sum
    if 0 < weight_sum then weighted_sum / weight_sum else 0

/-- The linearly position-weighted average exactly as the specification words
it: `Σ conf_i · i / Σ i` with weight `i` for the `i`-th step, 1-indexed. -/
def positionWeightedAverage (cs : List ℚ) : ℚ :=
  (∑ i in Finset.range cs.length, cs.getD i 0 * ((i : ℚ) + 1)) /
    (∑ i in Finset.range cs.length, ((i : ℚ) + 1))

lemma range_map_sum (g : ℕ → ℚ) : ∀ n : ℕ, ((List.range n).map g).sum = ∑ i in Finset.range n, g i := by
  intro n
  induction n with
  | zero => simp
  | succ n ih => rw [List.range_succ, List.map_append, List.sum_append, Finset.sum_range_succ, ih]; simp

lemma zipWith_weights_sum : ∀ (cs : List ℚ) (g : ℕ → ℚ),
    (List.zipWith (fun conf weight => conf * weight) cs ((List.range cs.length).map g)).sum =
      ∑ i in Finset.range cs.length, cs.getD i 0 * g i := by
  intro cs
  induction cs with
  | nil => intro g; simp
  | cons c cs ih =>
    intro g
    rw [List.length_cons, List.range_succ_eq_map, List.map_cons, List.map_map,
      List.zipWith_cons_cons, List.sum_cons, Finset.sum_range_succ']
    have hmap : (List.range cs.length).map (g ∘ Nat.succ) = (List.range cs.length).map (fun i => g (i + 1)) := by
      simp [Function.comp]
    rw [hmap, ih (fun i => g (i + 1))]
    simp [add_comm]

lemma weights_sum_pos (n : ℕ) (hn : n ≠ 0) :
    (0 : ℚ) < ((List.range n).map (fun i : ℕ => (i : ℚ) + 1)).sum := by
  rw [range_map_sum]
  apply Finset.sum_pos
  · intro i _
    positivity
  · exact Finset.nonempty_range_iff.mpr hn

/-- C7: for every non-empty list of per-step confidences, the overall workflow
confidence computed by `calculate_workflow_confidence` equals the linearly
position-weighted average `Σ conf_i · i / Σ i` (1-indexed weights), so later
steps contribute more to the aggregate. -/
theorem calculate_workflow_confidence_eq_positionWeightedAverage
    (cs : List ℚ) (hne : cs ≠ []) :
    calculate_workflow_confidence cs = positionWeightedAverage cs := by
  unfold calculate_workflow_confidence positionWeightedAverage
  rw [if_neg (by simpa using hne)]
  have hlen : cs.length ≠ 0 := by simpa using hne
  rw [if_pos (weights_sum_pos cs.length hlen)]
  rw [zipWith_weights_sum cs (fun i : ℕ => (i : ℚ) + 1), range_map_sum]

/-- Witness for C7 at the concrete confidence list `[1/2, 1]`. -/
theorem calculate_workflow_confidence_eq_positionWeightedAverage_witness :
    ([(1 : ℚ)/2, 1] ≠ []) ∧
      calculate_workflow_confidence [(1 : ℚ)/2, 1] = positionWeightedAverage [(1 : ℚ)/2, 1] :=
  ⟨by decide, calculate_workflow_confidence_eq_positionWeightedAverage [(1 : ℚ)/2, 1] (by decide)⟩

lemma zipWith_sum_le_mul (hi : ℚ) : ∀ (cs ws : List ℚ), cs.length = ws.length →
    (∀ w ∈ ws, 0 ≤ w) → (∀ c ∈ cs, c ≤ hi) →
    (List.zipWith (fun conf weight => conf * weight) cs ws).sum ≤ hi * ws.sum := by
  intro cs
  induction cs with
  | nil =>
    intro ws hlen _ _
    have : ws = [] := by
      cases ws with
      | nil => rfl
      | cons w ws => simp at hlen
    subst this; simp
  | cons c cs ih =>
    intro ws hlen hw hc
    cases ws with
    | nil => simp at hlen
    | cons w ws =>
      rw [List.zipWith_cons_cons, List.sum_cons, List.sum_cons, mul_add]
      have h1 : c * w ≤ hi * w := by
        apply mul_le_mul_of_nonneg_right (hc c (by simp)) (hw w (by simp))
      have h2 := ih ws (by simpa using hlen) (fun x hx => hw x (by simp [hx])) (fun x hx => hc x (by simp [hx]))
      linarith

lemma mul_le_zipWith_sum (lo : ℚ) : ∀ (cs ws : List ℚ), cs.length = ws.length →
    (∀ w ∈ ws, 0 ≤ w) → (∀ c ∈ cs, lo ≤ c) →
    lo * ws.sum ≤ (List.zipWith (fun conf weight => conf * weight) cs ws).sum := by
  intro cs
  induction cs with
  | nil =>
    intro ws hlen _ _
    have : ws = [] := by
      cases ws with
      | nil => rfl
      | cons w ws => simp at hlen
    subst this; simp
  | cons c cs ih =>
    intro ws hlen hw hc
    cases ws with
    | nil => simp at hlen
    | cons w ws =>
      rw [List.zipWith_cons_cons, List.sum_cons, List.sum_cons, mul_add]
      have h1 : lo * w ≤ c * w := by
        apply mul_le_mul_of_nonneg_right (hc c (by simp)) (hw w (by simp))
      have h2 := ih ws (by simpa using hlen) (fun x hx => hw x (by simp [hx])) (fun x hx => hc x (by simp [hx]))
      linarith

/-- C10: the aggregation returns 0 on the empty list, and on a non-empty list
the result lies between any lower bound and any upper bound of the inputs (in
particular between their minimum and maximum, hence within `[0,1]` whenever
every step confidence is). -/
theorem calculate_workflow_confidence_bounds :
    calculate_workflow_confidence [] = 0 ∧
      ∀ (cs : List ℚ) (lo hi : ℚ), cs ≠ [] → (∀ c ∈ cs, lo ≤ c) → (∀ c ∈ cs, c ≤ hi) →
        lo ≤ calculate_workflow_confidence cs ∧ calculate_workflow_confidence cs ≤ hi := by
  constructor
  · rfl
  · intro cs lo hi hne hlo hhi
    unfold calculate_workflow_confidence
    rw [if_neg (by simpa using hne)]
    have hlen : cs.length ≠ 0 := by simpa using hne
    have hpos := weights_sum_pos cs.length hlen
    rw [if_pos hpos]
    have hwnn : ∀ w ∈ (List.range cs.length).map (fun i : ℕ => (i : ℚ) + 1), 0 ≤ w := by
      intro w hw
      rcases List.mem_map.mp hw with ⟨i, _, rfl⟩
      positivity
    have hlens : cs.length = ((List.range cs.length).map (fun i : ℕ => (i : ℚ) + 1)).length := by
      simp
    constructor
    · rw [le_div_iff₀ hpos]
      exact mul_le_zipWith_sum lo cs _ hlens hwnn hlo
    · rw [div_le_iff₀ hpos]
      calc (List.zipWith (fun conf weight => conf * weight) cs ((List.range cs.length).map (fun i : ℕ => (i : ℚ) + 1))).sum
          ≤ hi * ((List.range cs.length).map (fun i : ℕ => (i : ℚ) + 1)).sum :=
            zipWith_sum_le_mul hi cs _ hlens hwnn hhi
        _ = _ := by ring

/-- Witness for C10 at the concrete list `[1/2, 1]` with bounds `[0, 1]`. -/
theorem calculate_workflow_confidence_bounds_witness :
    (([(1 : ℚ)/2, 1] : List ℚ) ≠ [] ∧ (∀ c ∈ [(1 : ℚ)/2, 1], 0 ≤ c) ∧ (∀ c ∈ [(1 : ℚ)/2, 1], c ≤ 1)) ∧
      0 ≤ calculate_workflow_confidence [(1 : ℚ)/2, 1] ∧ calculate_workflow_confidence [(1 : ℚ)/2, 1] ≤ 1 :=
  ⟨⟨by decide, by decide, by decide⟩,
    calculate_workflow_confidence_bounds.2 [(1 : ℚ)/2, 1] 0 1 (by decide) (by decide) (by decide)⟩

/-! ## `RoutingAgent` (lexical variant, `routing_agent.py`)
Registry `self.agent_capabilities` (lines 33-120), keyword extraction
(`_extract_routing_keywords`, lines 385-392), multi-agent assessment
(`_assess_multi_agent_requirement`, lines 394-402) and the routing decision
(`_make_routing_decision`, lines 429-476). -/

/-- One entry of the `agent_capabilities` registry dictionary. -/
structure AgentCapability where
  name : String
  specialties : List String
  keywords : List String
  task_types : List String
  confidence_threshold : ℚ
  complexity_handling : List String
  typical_outputs : List String
deriving DecidableEq

/-- The `agent_capabilities` registry, in Python dict insertion
(= registration) order. -/
def agent_capabilities : List AgentCapability :=
  [{ name := "ProjectManagerAgent",
     specialties := ["project_planning", "resource_allocation", "timeline_management",
       "risk_assessment", "stakeholder_management", "budget_planning",
       "milestone_tracking", "team_coordination"],
     keywords := ["project", "plan", "timeline", "milestone", "resource", "risk",
       "stakeholder", "budget", "scope", "deliverable", "schedule",
       "coordination", "management", "planning"],
     task_types := ["planning", "management", "coordination", "oversight"],
     confidence_threshold := 7/10,
     complexity_handling := ["low", "medium", "high"],
     typical_outputs := ["project_plans", "timelines", "risk_assessments"] },
   { name := "AugmentedPromptAgent",
     specialties := ["prompt_enhancement", "context_addition", "structure_optimization",
       "clarity_improvement", "prompt_engineering"],
     keywords := ["prompt", "enhance", "improve", "structure", "clarity", "context",
       "optimize", "refine", "format", "template"],
     task_types := ["enhancement", "optimization", "formatting"],
     confidence_threshold := 8/10,
     complexity_handling := ["low", "medium"],
     typical_outputs := ["enhanced_prompts", "structured_requests"] },
   { name := "KnowledgeAugmentedPromptAgent",
     specialties := ["domain_knowledge_integration", "best_practices", "framework_application",
       "expertise_addition", "methodology_integration"],
     keywords := ["knowledge", "expertise", "best_practice", "framework", "methodology",
       "domain", "standard", "guideline", "principle", "approach"],
     task_types := ["knowledge_integration", "expertise_application"],
     confidence_threshold := 75/100,
     complexity_handling := ["medium", "high"],
     typical_outputs := ["knowledge_enhanced_content", "expert_recommendations"] },
   { name := "RAGKnowledgePromptAgent",
     specialties := ["information_retrieval", "knowledge_search", "source_integration",
       "fact_checking", "research_augmentation"],
     keywords := ["retrieve", "search", "source", "reference", "lookup", "find",
       "information", "research", "data", "facts"],
     task_types := ["research", "information_gathering", "fact_checking"],
     confidence_threshold := 8/10,
     complexity_handling := ["medium", "high"],
     typical_outputs := ["research_results", "sourced_information"] },
   { name := "EvaluationAgent",
     specialties := ["quality_assessment", "scoring", "feedback_generation",
       "performance_evaluation", "compliance_checking", "review_processes"],
     keywords := ["evaluate", "assess", "score", "quality", "feedback", "review",
       "grade", "measure", "analyze", "critique", "audit"],
     task_types := ["evaluation", "assessment", "review", "analysis"],
     confidence_threshold := 85/100,
     complexity_handling := ["low", "medium", "high"],
     typical_outputs := ["evaluation_reports", "scores", "recommendations"] },
   { name := "ActionPlanningAgent",
     specialties := ["task_breakdown", "action_planning", "step_sequencing",
       "implementation_strategy", "workflow_design", "process_planning"],
     keywords := ["action", "plan", "step", "task", "implement", "execute",
       "strategy", "breakdown", "sequence", "workflow", "process"],
     task_types := ["planning", "implementation", "process_design"],
     confidence_threshold := 75/100,
     complexity_handling := ["low", "medium", "high"],
     typical_outputs := ["action_plans", "step_by_step_guides", "workflows"] }]

/-- The slice of `_analyze_task_comprehensively`'s result that
`_make_routing_decision` consumes: classification, complexity, domain and the
per-agent found-keyword dictionary. -/
structure TaskAnalysis where
  classification : String
  complexity : String
  domain : String
  keywords : List (String × List String)
  multi_agent_required : Bool
deriving DecidableEq

/-- `_extract_routing_keywords`: for each registered agent, the agent's
keywords that occur as substrings of the (lowercased) task text; agents with
no hit are omitted from the dictionary. -/
def extractRoutingKeywords (text : String) : List (String × List String) :=
  (agent_capabilities.map
    (fun cap => (cap.name, cap.keywords.filter (fun k => pyIn k text)))).filter
    (fun p => !p.2.isEmpty)

/-- `_assess_multi_agent_requirement`'s indicator list. -/
def multi_agent_indicators : List String :=
  ["comprehensive", "end-to-end", "complete", "full", "integrated",
   "multiple phases", "various aspects", "different perspectives",
   "holistic approach", "multi-faceted"]

/-- `_assess_multi_agent_requirement(text)`: true iff any indicator phrase is
a substring of the text. -/
def assess_multi_agent_requirement (text : String) : Bool :=
  multi_agent_indicators.any (fun indicator => pyIn indicator text)

/-- The per-agent score accumulation of `_make_routing_decision`
(lines 434-459): keyword overlap (40%), task-type alignment (30%),
complexity handling (20%), domain alignment (10%), preferred-agent bonus
(10%), capped at 1.0. -/
def agentScore (analysis : TaskAnalysis) (preferred_agents : List String)
    (cap : AgentCapability) : ℚ :=
  let agent_keywords := dictGetD analysis.keywords cap.name []
  let keyword_score : ℚ := (agent_keywords.length : ℚ) / (cap.keywords.length : ℚ)
  let s := keyword_score * (4/10)
  let s := s + (if cap.task_types.contains analysis.classification then 3/10 else 0)
  let s := s + (if cap.complexity_handling.contains analysis.complexity then 2/10 else 0)
  let s := s + (if pyIn analysis.domain (String.intercalate " " cap.specialties) then 1/10 else 0)
  let s := s + (if preferred_agents.contains cap.name then 1/10 else 0)
  min s 1

/-- The `agent_scores` dictionary, in registration order. -/
def agentScoresList (analysis : TaskAnalysis) (preferred_agents : List String) :
    List (String × ℚ) :=
  agent_capabilities.map (fun cap => (cap.name, agentScore analysis preferred_agents cap))

/-- Python's `max(agent_scores, key=agent_scores.get)` over the dictionary in
insertion order: scan left to right, replace the current best only on a
strictly greater score — so the first maximiser wins. -/
def pyMaxBySnd : List (String × ℚ) → String × ℚ
  | [] => ("", 0)
  | x :: xs => xs.foldl (fun best cand => if best.2 < cand.2 then cand else best) x

/-- Sort key order used for the alternatives: score descending. Python's
`sorted(..., key=lambda x: x[1], reverse=True)` is a stable sort, which
`List.insertionSort` with this relation reproduces exactly. -/
def scoreGe (a b : String × ℚ) : Prop := b.2 ≤ a.2

instance : DecidableRel scoreGe := fun a b => inferInstanceAs (Decidable (b.2 ≤ a.2))

instance : IsTotal (String × ℚ) scoreGe := ⟨fun a b => le_total b.2 a.2⟩

instance : IsTrans (String × ℚ) scoreGe := ⟨fun _ _ _ h1 h2 => le_trans h2 h1⟩

/-- The routing decision record returned by `_make_routing_decision`. -/
structure RoutingDecision where
  primary_agent : String
  confidence : ℚ
  alternatives : List (String × ℚ)
deriving DecidableEq

/-- `_make_routing_decision` (lines 461-476): primary = first maximiser of
the score dict, confidence = its score, alternatives = the score-sorted
non-primary agents scoring strictly above 0.3, capped to the top 3. -/
def makeRoutingDecision (analysis : TaskAnalysis) (preferred_agents : List String) :
    RoutingDecision :=
  let agent_scores := agentScoresList analysis preferred_agents
  let top := pyMaxBySnd agent_scores
  let ranked := List.insertionSort scoreGe agent_scores
  let alternatives :=
    (ranked.filter (fun p => p.1 != top.1 && decide ((3 : ℚ)/10 < p.2))).take 3
  { primary_agent := top.1, confidence := top.2, alternatives := alternatives }

lemma pyMax_foldl_spec (xs : List (String × ℚ)) : ∀ (x : String × ℚ),
    ∃ l₁ l₂,
      x :: xs = l₁ ++ (List.foldl (fun best cand => if best.2 < cand.2 then cand else best) x xs) :: l₂ ∧
      (∀ z ∈ l₁, z.2 < (List.foldl (fun best cand => if best.2 < cand.2 then cand else best) x xs).2) ∧
      (∀ z ∈ l₂, z.2 ≤ (List.foldl (fun best cand => if best.2 < cand.2 then cand else best) x xs).2) := by
  induction xs with
  | nil =>
    intro x
    exact ⟨[], [], rfl, by simp, by simp⟩
  | cons y ys ih =>
    intro x
    rw [List.foldl_cons]
    obtain ⟨l₁, l₂, hdec, hlt, hle⟩ := ih (if x.2 < y.2 then y else x)
    by_cases hxy : x.2 < y.2
    · rw [if_pos hxy] at hdec hlt hle ⊢
      cases l₁ with
      | nil =>
        simp only [List.nil_append] at hdec
        injection hdec with h1 h2
        refine ⟨[x], l₂, ?_, ?_, hle⟩
        · rw [List.singleton_append, ← h1, ← h2]
        · intro z hz
          rw [List.mem_singleton] at hz
          subst hz
          exact lt_of_lt_of_le hxy (le_of_eq (congrArg Prod.snd h1))
      | cons h t =>
        rw [List.cons_append] at hdec
        injection hdec with hh ht
        subst hh
        refine ⟨x :: y :: t, l₂, ?_, ?_, hle⟩
        · rw [List.cons_append, List.cons_append, ← ht]
        · intro z hz
          rcases List.mem_cons.mp hz with rfl | hz
          · have hy := hlt y (by simp)
            exact lt_trans hxy hy
          · rcases List.mem_cons.mp hz with rfl | hz
            · exact hlt z (by simp)
            · exact hlt z (by simp [hz])
    · rw [if_neg hxy] at hdec hlt hle ⊢
      have hyx : y.2 ≤ x.2 := le_of_not_lt hxy
      cases l₁ with
      | nil =>
        simp only [List.nil_append] at hdec
        injection hdec with hh ht
        refine ⟨[], y :: l₂, ?_, by simp, ?_⟩
        · simp only [List.nil_append]
          rw [← hh, ← ht]
        · intro z hz
          rcases List.mem_cons.mp hz with rfl | hz
          · rw [← hh]; exact hyx
          · exact hle z hz
      | cons h t =>
        rw [List.cons_append] at hdec
        injection hdec with hh ht
        subst hh
        refine ⟨x :: y :: t, l₂, ?_, ?_, hle⟩
        · rw [List.cons_append, List.cons_append, ← ht]
        · intro z hz
          have hx : x.2 < (List.foldl (fun best cand => if best.2 < cand.2 then cand else best) x ys).2 :=
            hlt x (by simp)
          rcases List.mem_cons.mp hz with rfl | hz
          · exact hx
          · rcases List.mem_cons.mp hz with rfl | hz
            · exact lt_of_le_of_lt hyx hx
            · exact hlt z (by simp [hz])

lemma pyMaxBySnd_spec (l : List (String × ℚ)) (hne : l ≠ []) :
    ∃ l₁ l₂, l = l₁ ++ pyMaxBySnd l :: l₂ ∧
      (∀ z ∈ l₁, z.2 < (pyMaxBySnd l).2) ∧ (∀ z ∈ l₂, z.2 ≤ (pyMaxBySnd l).2) := by
  cases l with
  | nil => exact absurd rfl hne
  | cons x xs => exact pyMax_foldl_spec xs x

lemma pyMaxBySnd_mem (l : List (String × ℚ)) (hne : l ≠ []) : pyMaxBySnd l ∈ l := by
  obtain ⟨l₁, l₂, hdec, _, _⟩ := pyMaxBySnd_spec l hne
  have hm : pyMaxBySnd l ∈ l₁ ++ pyMaxBySnd l :: l₂ := by simp
  rwa [← hdec] at hm

lemma pyMaxBySnd_le (l : List (String × ℚ)) (hne : l ≠ []) :
    ∀ z ∈ l, z.2 ≤ (pyMaxBySnd l).2 := by
  obtain ⟨l₁, l₂, hdec, hlt, hle⟩ := pyMaxBySnd_spec l hne
  intro z hz
  rw [hdec] at hz
  rcases List.mem_append.mp hz with hz | hz
  · exact le_of_lt (hlt z hz)
  · rcases List.mem_cons.mp hz with rfl | hz
    · exact le_refl _
    · exact hle z hz

lemma pyMaxBySnd_eq_get_of_first_max (l : List (String × ℚ)) (k : ℕ) (hk : k < l.length)
    (hmax : ∀ z ∈ l, z.2 ≤ (l.get ⟨k, hk⟩).2)
    (hfirst : ∀ (m : ℕ) (hm : m < k), (l.get ⟨m, lt_trans hm hk⟩).2 < (l.get ⟨k, hk⟩).2) :
    pyMaxBySnd l = l.get ⟨k, hk⟩ := by
  have hne : l ≠ [] := List.ne_nil_of_length_pos (Nat.lt_of_le_of_lt (Nat.zero_le k) hk)
  obtain ⟨l₁, l₂, hdec, hlt, hle⟩ := pyMaxBySnd_spec l hne
  generalize hgen : pyMaxBySnd l = m at hdec hlt hle ⊢
  subst hdec
  have hgn : ∀ (h : l₁.length < (l₁ ++ m :: l₂).length), (l₁ ++ m :: l₂).get ⟨l₁.length, h⟩ = m := by
    intro h
    rw [List.get_eq_getElem, List.getElem_append_right (Nat.le_refl _)]
    simp
  have hnlen : l₁.length < (l₁ ++ m :: l₂).length := by simp
  rcases Nat.lt_trichotomy k l₁.length with hknl | hknl | hknl
  · exfalso
    have hgl : (l₁ ++ m :: l₂).get ⟨k, hk⟩ = l₁.get ⟨k, hknl⟩ := by
      rw [List.get_eq_getElem, List.get_eq_getElem, List.getElem_append_left hknl]
    have h1 : ((l₁ ++ m :: l₂).get ⟨k, hk⟩).2 < m.2 := by
      rw [hgl]
      exact hlt _ (List.get_mem l₁ k hknl)
    have h2 : m.2 ≤ ((l₁ ++ m :: l₂).get ⟨k, hk⟩).2 := hmax m (by simp)
    exact absurd (lt_of_le_of_lt h2 h1) (lt_irrefl _)
  · subst hknl
    exact (hgn hk).symm
  · exfalso
    have h1 : m.2 < ((l₁ ++ m :: l₂).get ⟨k, hk⟩).2 := by
      have := hfirst l₁.length hknl
      rwa [hgn (lt_trans hknl hk)] at this
    have hmem : (l₁ ++ m :: l₂).get ⟨k, hk⟩ ∈ l₁ ++ m :: l₂ := List.get_mem _ k hk
    rcases List.mem_append.mp hmem with hmem | hmem
    · exact absurd (lt_trans h1 (hlt _ hmem)) (lt_irrefl _)
    · rcases List.mem_cons.mp hmem with heq | hmem
      · rw [heq] at h1
        exact absurd h1 (lt_irrefl _)
      · exact absurd (lt_of_lt_of_le h1 (hle _ hmem)) (lt_irrefl _)

/-- Task text reaching the tie among alternatives: it classifies as
`planning` (pattern `implementation.*strategy`), scores complexity `high`
(indicator `sophisticated`), matches no domain pattern (domain `general`),
and hits exactly three keywords each of `KnowledgeAugmentedPromptAgent`
and `RAGKnowledgePromptAgent`, and two of `ActionPlanningAgent`. -/
def tieText : String :=
  "implementation strategy with sophisticated knowledge framework methodology source reference data"

/-- The task analysis `_analyze_task_comprehensively` derives from `tieText`. -/
def tieAnalysis : TaskAnalysis :=
  { classification := "planning", complexity := "high", domain := "general",
    keywords := extractRoutingKeywords tieText, multi_agent_required := false }

/-- C3 counterexample: on `tieAnalysis` the alternatives are
`ProjectManagerAgent` (0.5), `KnowledgeAugmentedPromptAgent` (0.32) and
`RAGKnowledgePromptAgent` (0.32) — the last two tie, so the list is not
strictly score-descending, refuting the claimed strict descent. -/
theorem routing_alternatives_not_strictly_descending_cex :
    (makeRoutingDecision tieAnalysis []).alternatives =
      [("ProjectManagerAgent", (1 : ℚ)/2), ("KnowledgeAugmentedPromptAgent", (8 : ℚ)/25),
       ("RAGKnowledgePromptAgent", (8 : ℚ)/25)] ∧
    ¬ List.Pairwise (fun a b : String × ℚ => b.2 < a.2)
        (makeRoutingDecision tieAnalysis []).alternatives := by
  constructor
  · decide
  · decide

/-- C3 (amended): for every analysis and preference list, the alternatives
never contain the primary agent, contain only agents scoring strictly above
0.3, have at most 3 entries, and are score-descending in the weak sense
(non-increasing; ties are possible and are ordered by registration). -/
theorem routing_alternatives_invariants (analysis : TaskAnalysis) (preferred : List String) :
    (∀ p ∈ (makeRoutingDecision analysis preferred).alternatives,
        p.1 ≠ (makeRoutingDecision analysis preferred).primary_agent ∧ (3 : ℚ)/10 < p.2) ∧
      (makeRoutingDecision analysis preferred).alternatives.length ≤ 3 ∧
      (makeRoutingDecision analysis preferred).alternatives.Pairwise scoreGe := by
  refine ⟨?_, ?_, ?_⟩
  · intro p hp
    have hp2 : p ∈ (List.insertionSort scoreGe (agentScoresList analysis preferred)).filter
        (fun q => q.1 != (pyMaxBySnd (agentScoresList analysis preferred)).1 &&
          decide ((3 : ℚ)/10 < q.2)) := List.mem_of_mem_take hp
    have hcond := List.of_mem_filter hp2
    rw [Bool.and_eq_true] at hcond
    exact ⟨by simpa using hcond.1, by simpa using hcond.2⟩
  · have : (makeRoutingDecision analysis preferred).alternatives.length ≤ 3 := by
      show (List.take 3 _).length ≤ 3
      rw [List.length_take]
      exact min_le_left _ _
    exact this
  · have hsorted : (List.insertionSort scoreGe (agentScoresList analysis preferred)).Pairwise scoreGe :=
      List.sorted_insertionSort scoreGe (agentScoresList analysis preferred)
    have hsub : List.Sublist (makeRoutingDecision analysis preferred).alternatives
        (List.insertionSort scoreGe (agentScoresList analysis preferred)) := by
      show List.Sublist (List.take 3 (List.filter _ _)) _
      exact (List.take_sublist _ _).trans (List.filter_sublist _)
    exact List.Pairwise.sublist hsub hsorted

/-- The lexical blend formula exactly as the specification words it:
`0.4·keyword_overlap + 0.3·task_type_match + 0.2·complexity_compatible +
0.1·domain_match + 0.1·preferred bonus`, capped at 1.0. -/
def lexicalBlendScore (keyword_overlap : ℚ)
    (task_type_match complexity_compatible domain_match caller_preferred : Bool) : ℚ :=
  min ((4/10) * keyword_overlap
    + (if task_type_match then 3/10 else 0)
    + (if complexity_compatible then 2/10 else 0)
    + (if domain_match then 1/10 else 0)
    + (if caller_preferred then 1/10 else 0)) 1

/-- C4: the score `_make_routing_decision` assigns to each provider equals
the specification's lexical blend: 0.4 times the keyword-overlap fraction,
plus 0.3 for a task-type match, 0.2 for a supported complexity tier, 0.1 for
a domain match against the specialty descriptors, and a flat 0.1 bonus for a
caller-preferred provider, capped at 1.0. -/
theorem agentScore_eq_lexicalBlendScore (analysis : TaskAnalysis)
    (preferred_agents : List String) (cap : AgentCapability) :
    agentScore analysis preferred_agents cap =
      lexicalBlendScore
        (((dictGetD analysis.keywords cap.name []).length : ℚ) / (cap.keywords.length : ℚ))
        (cap.task_types.contains analysis.classification)
        (cap.complexity_handling.contains analysis.complexity)
        (pyIn analysis.domain (String.intercalate " " cap.specialties))
        (preferred_agents.contains cap.name) := by
  simp only [agentScore, lexicalBlendScore]
  rw [mul_comm]

/-- C5: whenever the provider at registration index `i` attains the maximal
lexical score, every earlier provider scores strictly lower, and some later
provider `j` ties with it, the primary is the provider at index `i` — the
one registered first; the ranking is a stable sort by registration order. -/
theorem routing_tie_breaks_by_registration (analysis : TaskAnalysis) (preferred : List String)
    (i j : ℕ) (hj : j < (agentScoresList analysis preferred).length) (hij : i < j)
    (htie : ((agentScoresList analysis preferred).get ⟨i, lt_trans hij hj⟩).2 =
      ((agentScoresList analysis preferred).get ⟨j, hj⟩).2)
    (hmax : ∀ z ∈ agentScoresList analysis preferred,
      z.2 ≤ ((agentScoresList analysis preferred).get ⟨i, lt_trans hij hj⟩).2)
    (hfirst : ∀ (m : ℕ) (hm : m < i),
      ((agentScoresList analysis preferred).get ⟨m, lt_trans hm (lt_trans hij hj)⟩).2 <
        ((agentScoresList analysis preferred).get ⟨i, lt_trans hij hj⟩).2) :
    (makeRoutingDecision analysis preferred).primary_agent =
      ((agentScoresList analysis preferred).get ⟨i, lt_trans hij hj⟩).1 := by
  have hprim : (makeRoutingDecision analysis preferred).primary_agent =
      (pyMaxBySnd (agentScoresList analysis preferred)).1 := rfl
  rw [hprim, pyMaxBySnd_eq_get_of_first_max (agentScoresList analysis preferred) i
    (lt_trans hij hj) hmax hfirst]

/-- Analysis with an exact two-way tie for the top score: classification
`planning` and complexity `medium` give both `ProjectManagerAgent` and
`ActionPlanningAgent` a score of 0.5 with no keyword hits. -/
def twoWayTieAnalysis : TaskAnalysis :=
  { classification := "planning", complexity := "medium", domain := "general",
    keywords := [], multi_agent_required := false }

/-- Witness for C5: `ProjectManagerAgent` (index 0) and `ActionPlanningAgent`
(index 5) both score 0.5, the maximum; the primary is `ProjectManagerAgent`,
the one registered first. -/
theorem routing_tie_breaks_by_registration_witness :
    (((agentScoresList twoWayTieAnalysis []).get ⟨0, by decide⟩).2 =
        ((agentScoresList twoWayTieAnalysis []).get ⟨5, by decide⟩).2) ∧
      (makeRoutingDecision twoWayTieAnalysis []).primary_agent = "ProjectManagerAgent" := by
  refine ⟨by decide, ?_⟩
  have h := routing_tie_breaks_by_registration twoWayTieAnalysis [] 0 5
    (by decide) (by decide) (by decide) (by decide)
    (fun m hm => absurd hm (Nat.not_lt_zero m))
  exact h.trans (by decide)

lemma agentScore_unfold (analysis : TaskAnalysis) (preferred_agents : List String)
    (cap : AgentCapability) :
    agentScore analysis preferred_agents cap =
      min (((dictGetD analysis.keywords cap.name []).length : ℚ) / (cap.keywords.length : ℚ) * (4/10)
        + (if cap.task_types.contains analysis.classification then 3/10 else 0)
        + (if cap.complexity_handling.contains analysis.complexity then 2/10 else 0)
        + (if pyIn analysis.domain (String.intercalate " " cap.specialties) then 1/10 else 0)
        + (if preferred_agents.contains cap.name then 1/10 else 0)) 1 := rfl

lemma agentScore_nonneg (analysis : TaskAnalysis) (preferred_agents : List String)
    (cap : AgentCapability) : 0 ≤ agentScore analysis preferred_agents cap := by
  rw [agentScore_unfold]
  refine le_min ?_ zero_le_one
  refine add_nonneg (add_nonneg (add_nonneg (add_nonneg ?_ ?_) ?_) ?_) ?_
  · positivity
  · split_ifs <;> norm_num
  · split_ifs <;> norm_num
  · split_ifs <;> norm_num
  · split_ifs <;> norm_num

lemma agentScore_le_one (analysis : TaskAnalysis) (preferred_agents : List String)
    (cap : AgentCapability) : agentScore analysis preferred_agents cap ≤ 1 := by
  rw [agentScore_unfold]
  exact min_le_right _ _

lemma agentScoresList_ne_nil (analysis : TaskAnalysis) (preferred : List String) :
    agentScoresList analysis preferred ≠ [] := by
  simp [agentScoresList, agent_capabilities]

/-! ## `RoutingAgent` (semantic variant, `routing_agent_fixed.py`)
`_cosine_similarity` (lines 80-92) and the reported `confidence_score`
`min(0.95, best_similarity + 0.1)` (line 167). The embedding vectors come
from the external embedder and are unconstrained reals. -/

/-- `np.dot` on two equal-length vectors. -/
noncomputable def npDot (v w : List ℝ) : ℝ :=
  (List.zipWith (fun a b => a * b) v w).sum

/-- `np.linalg.norm`: the Euclidean norm. -/
noncomputable def npNorm (v : List ℝ) : ℝ :=
  Real.sqrt (npDot v v)

/-- `_cosine_similarity(vec1, vec2)`: 0.0 when either norm is zero, else the
dot product over the product of norms. -/
noncomputable def cosine_similarity (vec1 vec2 : List ℝ) : ℝ :=
  if npNorm vec1 = 0 ∨ npNorm vec2 = 0 then 0
  else npDot vec1 vec2 / (npNorm vec1 * npNorm vec2)

/-- The semantic strategy's reported confidence:
`min(0.95, best_similarity + 0.1)`. -/
noncomputable def semanticConfidence (best_similarity : ℝ) : ℝ :=
  min (95/100) (best_similarity + 1/10)

/-- C2 counterexample: for the (external, unconstrained) embedding vectors
`[1]` and `[-1]` the cosine similarity is `-1`, and the semantic strategy
reports confidence `min(0.95, -1 + 0.1) = -0.9`, which is not in `[0, 1]` —
refuting the claim that the reported confidence always lies in `[0, 1]`. -/
theorem semantic_confidence_not_in_unit_interval_cex :
    semanticConfidence (cosine_similarity [(1 : ℝ)] [(-1 : ℝ)]) = -(9/10) ∧
      semanticConfidence (cosine_similarity [(1 : ℝ)] [(-1 : ℝ)]) < 0 := by
  have hdot : npDot [(1 : ℝ)] [(-1 : ℝ)] = -1 := by
    simp [npDot]
  have hdot1 : npDot [(1 : ℝ)] [(1 : ℝ)] = 1 := by
    simp [npDot]
  have hdot2 : npDot [(-1 : ℝ)] [(-1 : ℝ)] = 1 := by
    norm_num [npDot]
  have hn1 : npNorm [(1 : ℝ)] = 1 := by
    rw [npNorm, hdot1, Real.sqrt_one]
  have hn2 : npNorm [(-1 : ℝ)] = 1 := by
    rw [npNorm, hdot2, Real.sqrt_one]
  have hcos : cosine_similarity [(1 : ℝ)] [(-1 : ℝ)] = -1 := by
    rw [cosine_similarity, if_neg (by rw [hn1, hn2]; norm_num), hdot, hn1, hn2]
    norm_num
  rw [hcos, semanticConfidence]
  norm_num

/-- C2 (amended): the lexical routing confidence always lies in `[0, 1]`
(each blend component is non-negative and the total is capped at 1); the
semantic confidence `min(0.95, similarity + 0.1)` is always at most 0.95,
and lies in `[0, 1]` whenever the primary's cosine similarity is at least
`-0.1` — but not in general (see the counterexample). -/
theorem routing_confidence_range :
    (∀ (analysis : TaskAnalysis) (preferred : List String),
        0 ≤ (makeRoutingDecision analysis preferred).confidence ∧
          (makeRoutingDecision analysis preferred).confidence ≤ 1) ∧
      (∀ s : ℝ, semanticConfidence s ≤ 95/100) ∧
      (∀ vec1 vec2 : List ℝ, -(1 : ℝ)/10 ≤ cosine_similarity vec1 vec2 →
        0 ≤ semanticConfidence (cosine_similarity vec1 vec2) ∧
          semanticConfidence (cosine_similarity vec1 vec2) ≤ 1) := by
  refine ⟨?_, ?_, ?_⟩
  · intro analysis preferred
    have hconf : (makeRoutingDecision analysis preferred).confidence =
        (pyMaxBySnd (agentScoresList analysis preferred)).2 := rfl
    have hmem := pyMaxBySnd_mem (agentScoresList analysis preferred)
      (agentScoresList_ne_nil analysis preferred)
    rcases List.mem_map.mp hmem with ⟨cap, _, hcap⟩
    rw [hconf, ← hcap]
    exact ⟨agentScore_nonneg analysis preferred cap, agentScore_le_one analysis preferred cap⟩
  · intro s
    exact min_le_left _ _
  · intro vec1 vec2 hs
    refine ⟨le_min (by norm_num) (by linarith), ?_⟩
    calc semanticConfidence (cosine_similarity vec1 vec2) ≤ 95/100 := min_le_left _ _
      _ ≤ 1 := by norm_num

/-- Witness for C2 at the lexical side with the empty analysis, and at the
semantic side with the vectors `[1]`, `[1]` whose cosine similarity is 1. -/
theorem routing_confidence_range_witness :
    (-(1 : ℝ)/10 ≤ cosine_similarity [(1 : ℝ)] [(1 : ℝ)]) ∧
      (0 ≤ semanticConfidence (cosine_similarity [(1 : ℝ)] [(1 : ℝ)]) ∧
        semanticConfidence (cosine_similarity [(1 : ℝ)] [(1 : ℝ)]) ≤ 1) ∧
      (0 ≤ (makeRoutingDecision twoWayTieAnalysis []).confidence ∧
        (makeRoutingDecision twoWayTieAnalysis []).confidence ≤ 1) := by
  have hdot1 : npDot [(1 : ℝ)] [(1 : ℝ)] = 1 := by
    simp [npDot]
  have hn1 : npNorm [(1 : ℝ)] = 1 := by
    rw [npNorm, hdot1, Real.sqrt_one]
  have hcos : cosine_similarity [(1 : ℝ)] [(1 : ℝ)] = 1 := by
    rw [cosine_similarity, if_neg (by rw [hn1]; norm_num), hdot1, hn1]
    norm_num
  refine ⟨by rw [hcos]; norm_num, ?_, ?_⟩
  · exact routing_confidence_range.2.2 [(1 : ℝ)] [(1 : ℝ)] (by rw [hcos]; norm_num)
  · exact routing_confidence_range.1 twoWayTieAnalysis []

/-! ## Workflow selection (`agentic_workflow.py`, `_execute_routed_workflow`,
lines 327-344) -/

/-- The four workflow branches `_execute_routed_workflow` dispatches to. -/
inductive WorkflowRoute where
  | comprehensiveMultiAgent
  | enhancedProjectManagement
  | enhancedActionPlanning
  | enhancedEvaluation
deriving DecidableEq

/-- The dispatch of `_execute_routed_workflow`: comprehensive multi-agent if
the multi-agent flag is set or confidence is below 0.8, else the specialized
branch for the primary agent, else comprehensive multi-agent as fallback. -/
def executeRoutedWorkflowBranch (multi_agent_required : Bool) (confidence : ℚ)
    (primary_agent : String) : WorkflowRoute :=
  if multi_agent_required || decide (confidence < 8/10) then .comprehensiveMultiAgent
  else if primary_agent == "ProjectManagerAgent" then .enhancedProjectManagement
  else if primary_agent == "ActionPlanningAgent" then .enhancedActionPlanning
  else if primary_agent == "EvaluationAgent" then .enhancedEvaluation
  else .comprehensiveMultiAgent

/-- C6: if the analyzer's multi-agent signal is set — as it is for any text
containing one of the comprehensive/end-to-end/holistic-style indicator
phrases — or the routing confidence is below 0.8, the selector picks the
comprehensive multi-agent workflow; in particular the text "comprehensive
end-to-end rollout of a new platform" sets the signal and yields the
comprehensive workflow regardless of confidence. -/
theorem multi_agent_selects_comprehensive_workflow :
    (∀ (confidence : ℚ) (primary : String),
        executeRoutedWorkflowBranch true confidence primary = .comprehensiveMultiAgent) ∧
      (∀ (m : Bool) (confidence : ℚ) (primary : String), confidence < 8/10 →
        executeRoutedWorkflowBranch m confidence primary = .comprehensiveMultiAgent) ∧
      assess_multi_agent_requirement "comprehensive end-to-end rollout of a new platform" = true ∧
      (∀ (confidence : ℚ) (primary : String),
        executeRoutedWorkflowBranch
          (assess_multi_agent_requirement "comprehensive end-to-end rollout of a new platform")
          confidence primary = .comprehensiveMultiAgent) := by
  have hassess : assess_multi_agent_requirement
      "comprehensive end-to-end rollout of a new platform" = true := by decide
  refine ⟨?_, ?_, hassess, ?_⟩
  · intro confidence primary
    rw [executeRoutedWorkflowBranch, Bool.true_or, if_pos rfl]
  · intro m confidence primary hc
    rw [executeRoutedWorkflowBranch]
    rw [decide_eq_true hc, Bool.or_true, if_pos rfl]
  · intro confidence primary
    rw [hassess, executeRoutedWorkflowBranch, Bool.true_or, if_pos rfl]

/-- Witness for C6 at confidence 0.75 with the multi-agent flag off. -/
theorem multi_agent_selects_comprehensive_workflow_witness :
    ((75 : ℚ)/100 < 8/10) ∧
      executeRoutedWorkflowBranch false ((75 : ℚ)/100) "EvaluationAgent" =
        .comprehensiveMultiAgent :=
  ⟨by norm_num,
    multi_agent_selects_comprehensive_workflow.2.1 false ((75 : ℚ)/100) "EvaluationAgent"
      (by norm_num)⟩

/-! ## `EvaluationAgent` (fixed variant, `evaluation_agent_fixed.py`)
The evaluation result shape, the JSON-parse fallback of `_perform_evaluation`
(lines 177-190), the correction helpers (lines 192-216) and the bounded
correction loop of `process` (lines 77-121). The external evaluator is
modelled as a sequence `evals : ℕ → EvalResult`: `evals 0` is the initial
evaluation and `evals k` the re-evaluation produced in iteration `k`. -/

/-- The parsed evaluator output. -/
structure EvalResult where
  individual_scores : List (String × ℚ)
  overall_score : ℚ
  strengths : List String
  weaknesses : List String
  recommendations : List String
  risk_assessment : String
deriving DecidableEq

/-- The neutral synthetic result `_perform_evaluation` substitutes when
`json.loads` fails. -/
def fallbackEvaluation : EvalResult :=
  { individual_scores := [],
    overall_score := 5,
    strengths := ["Evaluation completed"],
    weaknesses := ["JSON parsing failed"],
    recommendations := ["Review evaluation format"],
    risk_assessment := "medium" }

/-- `_perform_evaluation` after the external call: the parsed evaluator
output when parsing succeeds, the fallback otherwise. -/
def performEvaluation (parsed : Option EvalResult) : EvalResult :=
  parsed.getD fallbackEvaluation

/-- `_generate_correction_instructions`: one directive per weakness, one per
criterion scoring below 6, one per recommendation. -/
def generateCorrectionInstructions (evaluation : EvalResult) (item : String)
    (criteria : List (String × String)) : List String :=
  (evaluation.weaknesses.map (fun weakness => "Address weakness: " ++ weakness)) ++
    ((evaluation.individual_scores.filter (fun p => decide (p.2 < 6))).map
      (fun p => "Improve " ++ p.1 ++ ": " ++ dictGetD criteria p.1 "Focus on this area")) ++
    (evaluation.recommendations.map (fun rec => "Implement: " ++ rec))

/-- `_apply_corrections`: append the correction notes to the item. -/
def applyCorrections (item : String) (instructions : List String) : String :=
  item ++ "\n\nCORRECTIONS APPLIED:\n" ++
    String.intercalate "\n" (instructions.map (fun inst => "- " ++ inst))

/-- One entry of the correction history. -/
structure CorrectionRecord where
  iteration : ℕ
  previous_score : ℚ
  new_score : ℚ
  corrections_applied : List String
  improvement : ℚ
deriving DecidableEq

/-- The mutable state of `process`'s while loop. -/
structure LoopState where
  interaction_count : ℕ
  evaluation_result : EvalResult
  current_item : String
  correction_history : List CorrectionRecord
deriving DecidableEq

/-- The `while interaction_count < max_interactions` loop of `process`
(lines 91-121), with structural fuel; fuel `max_interactions` is enough
because the count increases by one per iteration. -/
def correctionWhileLoop (evals : ℕ → EvalResult) (criteria : List (String × String))
    (correction_threshold : ℚ) (max_interactions : ℕ) : ℕ → LoopState → LoopState
  | 0, st => st
  | fuel + 1, st =>
    if st.interaction_count < max_interactions then
      let count := st.interaction_count + 1
      let correction_instructions :=
        generateCorrectionInstructions st.evaluation_result st.current_item criteria
      let corrected_item := applyCorrections st.current_item correction_instructions
      let new_evaluation := evals count
      let st2 : LoopState :=
        { interaction_count := count,
          evaluation_result := new_evaluation,
          current_item := corrected_item,
          correction_history := st.correction_history ++
            [{ iteration := count,
               previous_score := st.evaluation_result.overall_score,
               new_score := new_evaluation.overall_score,
               corrections_applied := correction_instructions,
               improvement := new_evaluation.overall_score - st.evaluation_result.overall_score }] }
      if correction_threshold ≤ new_evaluation.overall_score then st2
      else correctionWhileLoop evals criteria correction_threshold max_interactions fuel st2
    else st

/-- The outcome of `EvaluationAgent.process` that the claims talk about. -/
structure EvalProcessOutcome where
  overall_score : ℚ
  iterations_performed : ℕ
  correction_history : List CorrectionRecord
  final_item : String
  confidence_score : ℚ
deriving DecidableEq

/-- `EvaluationAgent.process` (lines 77-137): initial evaluation, then the
correction loop when corrections are enabled and the initial overall score is
below the threshold. -/
def evaluationProcess (enable_corrections : Bool) (correction_threshold : ℚ)
    (max_interactions : ℕ) (evals : ℕ → EvalResult) (criteria : List (String × String))
    (item_to_evaluate : String) : EvalProcessOutcome :=
  let evaluation_result := evals 0
  let st0 : LoopState :=
    { interaction_count := 0, evaluation_result := evaluation_result,
      current_item := item_to_evaluate, correction_history := [] }
  let final :=
    if enable_corrections && decide (evaluation_result.overall_score < correction_threshold) then
      correctionWhileLoop evals criteria correction_threshold max_interactions
        max_interactions st0
    else st0
  { overall_score := final.evaluation_result.overall_score,
    iterations_performed := final.interaction_count,
    correction_history := final.correction_history,
    final_item := final.current_item,
    confidence_score := min (9/10) (final.evaluation_result.overall_score / 10) }

lemma correctionWhileLoop_count_hist (evals : ℕ → EvalResult) (criteria : List (String × String))
    (threshold : ℚ) (maxI : ℕ) : ∀ (fuel : ℕ) (st : LoopState),
    (correctionWhileLoop evals criteria threshold maxI fuel st).correction_history.length +
        st.interaction_count =
      st.correction_history.length +
        (correctionWhileLoop evals criteria threshold maxI fuel st).interaction_count := by
  intro fuel
  induction fuel with
  | zero => intro st; rfl
  | succ fuel ih =>
    intro st
    rw [correctionWhileLoop]
    by_cases hlt : st.interaction_count < maxI
    · rw [if_pos hlt]
      by_cases hstop : threshold ≤ (evals (st.interaction_count + 1)).overall_score
      · rw [if_pos hstop]
        simp
        omega
      · rw [if_neg hstop]
        have h2 := ih ⟨st.interaction_count + 1, evals (st.interaction_count + 1),
          applyCorrections st.current_item
            (generateCorrectionInstructions st.evaluation_result st.current_item criteria),
          st.correction_history ++
            [⟨st.interaction_count + 1, st.evaluation_result.overall_score,
              (evals (st.interaction_count + 1)).overall_score,
              generateCorrectionInstructions st.evaluation_result st.current_item criteria,
              (evals (st.interaction_count + 1)).overall_score -
                st.evaluation_result.overall_score⟩]⟩
        simp only [List.length_append, List.length_cons, List.length_nil] at h2
        omega
    · rw [if_neg hlt]

lemma correctionWhileLoop_stops_at_hit (evals : ℕ → EvalResult)
    (criteria : List (String × String)) (threshold : ℚ) (maxI : ℕ) :
    ∀ (fuel : ℕ) (st : LoopState) (N : ℕ),
    st.interaction_count < N → N ≤ maxI → maxI ≤ st.interaction_count + fuel →
    (∀ m, st.interaction_count < m → m < N → (evals m).overall_score < threshold) →
    threshold ≤ (evals N).overall_score →
    (correctionWhileLoop evals criteria threshold maxI fuel st).interaction_count = N := by
  intro fuel
  induction fuel with
  | zero =>
    intro st N h1 h2 h3 _ _
    exfalso
    omega
  | succ fuel ih =>
    intro st N h1 h2 h3 hbelow hhit
    rw [correctionWhileLoop]
    have hlt : st.interaction_count < maxI := lt_of_lt_of_le h1 h2
    rw [if_pos hlt]
    by_cases heq : st.interaction_count + 1 = N
    · rw [if_pos (by rw [heq]; exact hhit)]
      exact heq
    · have hlt2 : st.interaction_count + 1 < N := by omega
      have hbelow2 : (evals (st.interaction_count + 1)).overall_score < threshold :=
        hbelow _ (Nat.lt_succ_self _) hlt2
      rw [if_neg (not_le.mpr hbelow2)]
      exact ih ⟨st.interaction_count + 1, evals (st.interaction_count + 1),
          applyCorrections st.current_item
            (generateCorrectionInstructions st.evaluation_result st.current_item criteria),
          st.correction_history ++
            [⟨st.interaction_count + 1, st.evaluation_result.overall_score,
              (evals (st.interaction_count + 1)).overall_score,
              generateCorrectionInstructions st.evaluation_result st.current_item criteria,
              (evals (st.interaction_count + 1)).overall_score -
                st.evaluation_result.overall_score⟩]⟩ N hlt2 h2
        (show maxI ≤ st.interaction_count + 1 + fuel by omega)
        (fun m hm1 hm2 => hbelow m (Nat.lt_of_succ_lt hm1) hm2) hhit

lemma correctionWhileLoop_exhausts (evals : ℕ → EvalResult)
    (criteria : List (String × String)) (threshold : ℚ) (maxI : ℕ) :
    ∀ (fuel : ℕ) (st : LoopState),
    st.interaction_count ≤ maxI → maxI ≤ st.interaction_count + fuel →
    (∀ m, st.interaction_count < m → m ≤ maxI → (evals m).overall_score < threshold) →
    (correctionWhileLoop evals criteria threshold maxI fuel st).interaction_count = maxI := by
  intro fuel
  induction fuel with
  | zero =>
    intro st h1 h2 _
    rw [correctionWhileLoop]
    omega
  | succ fuel ih =>
    intro st h1 h2 hbelow
    rw [correctionWhileLoop]
    by_cases hlt : st.interaction_count < maxI
    · rw [if_pos hlt]
      have hbelow2 : (evals (st.interaction_count + 1)).overall_score < threshold :=
        hbelow _ (Nat.lt_succ_self _) hlt
      rw [if_neg (not_le.mpr hbelow2)]
      exact ih ⟨st.interaction_count + 1, evals (st.interaction_count + 1),
          applyCorrections st.current_item
            (generateCorrectionInstructions st.evaluation_result st.current_item criteria),
          st.correction_history ++
            [⟨st.interaction_count + 1, st.evaluation_result.overall_score,
              (evals (st.interaction_count + 1)).overall_score,
              generateCorrectionInstructions st.evaluation_result st.current_item criteria,
              (evals (st.interaction_count + 1)).overall_score -
                st.evaluation_result.overall_score⟩]⟩
        (show st.interaction_count + 1 ≤ maxI by omega)
        (show maxI ≤ st.interaction_count + 1 + fuel by omega)
        (fun m hm1 hm2 => hbelow m (Nat.lt_of_succ_lt hm1) hm2)
    · rw [if_neg hlt]
      omega

/-- The specification-side notion "the first iteration at which the
re-evaluated overall score reaches the threshold". -/
def isFirstThresholdHit (evals : ℕ → EvalResult) (threshold : ℚ) (N : ℕ) : Prop :=
  1 ≤ N ∧ threshold ≤ (evals N).overall_score ∧
    ∀ m, 1 ≤ m → m < N → (evals m).overall_score < threshold

/-- C1: the number of correction iterations (and the correction-history
length) equals the smaller of `max_interactions` and the first iteration
whose re-evaluated score reaches the threshold; it is 0 when corrections are
disabled or the initial score already meets the threshold, and it is exactly
`max_interactions` when every re-evaluation stays below the threshold. -/
theorem correction_loop_iteration_count (enable_corrections : Bool) (threshold : ℚ)
    (max_interactions : ℕ) (evals : ℕ → EvalResult) (criteria : List (String × String))
    (item : String) :
    ((evaluationProcess enable_corrections threshold max_interactions evals criteria
        item).correction_history.length =
      (evaluationProcess enable_corrections threshold max_interactions evals criteria
        item).iterations_performed) ∧
    ((enable_corrections = false ∨ threshold ≤ (evals 0).overall_score) →
      (evaluationProcess enable_corrections threshold max_interactions evals criteria
        item).iterations_performed = 0) ∧
    (enable_corrections = true → (evals 0).overall_score < threshold →
      ∀ N, isFirstThresholdHit evals threshold N →
        (evaluationProcess enable_corrections threshold max_interactions evals criteria
          item).iterations_performed = min max_interactions N) ∧
    (enable_corrections = true → (evals 0).overall_score < threshold →
      (∀ m, 1 ≤ m → (evals m).overall_score < threshold) →
      (evaluationProcess enable_corrections threshold max_interactions evals criteria
        item).iterations_performed = max_interactions) := by
  refine ⟨?_, ?_, ?_, ?_⟩
  · simp only [evaluationProcess]
    by_cases hrun : enable_corrections && decide ((evals 0).overall_score < threshold)
    · rw [if_pos hrun]
      have h := correctionWhileLoop_count_hist evals criteria threshold max_interactions
        max_interactions ⟨0, evals 0, item, []⟩
      simpa using h
    · rw [if_neg hrun]
      rfl
  · intro hoff
    simp only [evaluationProcess]
    have hcond : (enable_corrections && decide ((evals 0).overall_score < threshold)) = false := by
      rcases hoff with hoff | hoff
      · rw [hoff, Bool.false_and]
      · rw [decide_eq_false (not_lt.mpr hoff), Bool.and_false]
    rw [hcond]
    rfl
  · intro hon hbelow0 N hN
    obtain ⟨hN1, hNhit, hNfirst⟩ := hN
    simp only [evaluationProcess]
    rw [if_pos (by rw [hon, Bool.true_and]; exact decide_eq_true hbelow0)]
    rcases le_or_lt N max_interactions with hNle | hNgt
    · have h := correctionWhileLoop_stops_at_hit evals criteria threshold max_interactions
        max_interactions ⟨0, evals 0, item, []⟩ N hN1 hNle (by omega)
        (fun m hm1 hm2 => hNfirst m hm1 hm2) hNhit
      rw [min_eq_right hNle]
      exact h
    · have h := correctionWhileLoop_exhausts evals criteria threshold max_interactions
        max_interactions ⟨0, evals 0, item, []⟩ (Nat.zero_le _) (by omega)
        (fun m hm1 hm2 => hNfirst m hm1 (lt_of_le_of_lt hm2 hNgt))
      rw [min_eq_left (le_of_lt hNgt)]
      exact h
  · intro hon hbelow0 hall
    simp only [evaluationProcess]
    rw [if_pos (by rw [hon, Bool.true_and]; exact decide_eq_true hbelow0)]
    exact correctionWhileLoop_exhausts evals criteria threshold max_interactions
      max_interactions ⟨0, evals 0, item, []⟩ (Nat.zero_le _) (by omega)
      (fun m hm1 _ => hall m hm1)

/-- A concrete evaluator run: the initial evaluation scores 3, the first
re-evaluation scores 9. -/
def sampleEvals : ℕ → EvalResult :=
  fun i => if i = 0 then ⟨[], 3, [], [], [], "high"⟩ else ⟨[], 9, [], [], [], "low"⟩

/-- Witness for C1: threshold 7, cap 3, initial score 3, first re-evaluation
scoring 9 — the loop performs `min 3 1 = 1` iteration. -/
theorem correction_loop_iteration_count_witness :
    (true = true ∧ (sampleEvals 0).overall_score < 7 ∧ isFirstThresholdHit sampleEvals 7 1) ∧
      (evaluationProcess true 7 3 sampleEvals [] "draft").iterations_performed = min 3 1 := by
  have hhit : isFirstThresholdHit sampleEvals 7 1 := by
    refine ⟨le_refl 1, by decide, ?_⟩
    intro m hm1 hm2
    omega
  refine ⟨⟨rfl, by decide, hhit⟩, ?_⟩
  exact (correction_loop_iteration_count true 7 3 sampleEvals [] "draft").2.2.1 rfl
    (by decide) 1 hhit

/-- C9: when the evaluator's output cannot be parsed, `_perform_evaluation`
substitutes the neutral synthetic result — moderate overall score 5 on the
1-10 scale with generic strength/weakness/recommendation texts — and the
correction loop keeps running on it (it completes all `max_interactions`
iterations at threshold 7 instead of failing). -/
theorem evaluation_parse_failure_fallback :
    performEvaluation none = fallbackEvaluation ∧
      fallbackEvaluation.overall_score = 5 ∧
      fallbackEvaluation.strengths = ["Evaluation completed"] ∧
      fallbackEvaluation.weaknesses = ["JSON parsing failed"] ∧
      fallbackEvaluation.recommendations = ["Review evaluation format"] ∧
      (∀ (max_interactions : ℕ) (criteria : List (String × String)) (item : String),
        (evaluationProcess true 7 max_interactions (fun _ => performEvaluation none)
            criteria item).iterations_performed = max_interactions ∧
          (evaluationProcess true 7 max_interactions (fun _ => performEvaluation none)
            criteria item).overall_score = 5) := by
  refine ⟨rfl, rfl, rfl, rfl, rfl, ?_⟩
  intro maxI criteria item
  constructor
  · simp only [evaluationProcess]
    rw [if_pos (by decide)]
    exact correctionWhileLoop_exhausts _ criteria 7 maxI maxI ⟨0, performEvaluation none, item, []⟩
      (Nat.zero_le _) (by omega) (fun m _ _ => by decide)
  · simp only [evaluationProcess]
    rw [if_pos (by decide)]
    have hscore : ∀ (fuel : ℕ) (st : LoopState),
        (∀ k, (fun _ : ℕ => performEvaluation none) k = st.evaluation_result) →
        (correctionWhileLoop (fun _ => performEvaluation none) criteria 7 maxI fuel
          st).evaluation_result.overall_score = st.evaluation_result.overall_score := by
      intro fuel
      induction fuel with
      | zero => intro st _; rfl
      | succ fuel ih =>
        intro st hst
        rw [correctionWhileLoop]
        by_cases hlt : st.interaction_count < maxI
        · rw [if_pos hlt]
          rw [if_neg (show ¬(7 : ℚ) ≤ (performEvaluation none).overall_score by decide)]
          rw [ih _ (fun k => rfl)]
          rw [← hst 0]
        · rw [if_neg hlt]
    rw [hscore maxI ⟨0, performEvaluation none, item, []⟩ (fun k => rfl)]
    rfl

/-! ## Step executor (`agentic_workflow.py`)
`process_project_request` (lines 264-303) wraps the routed workflow in a
try/except: any provider exception aborts the remaining steps and the caller
receives `_create_error_response` (lines 714-724), which carries only the
error message — the locally accumulated step records are discarded. The
comprehensive multi-agent branch (lines 522-589) is the executed plan;
providers are modelled as `invoke : ℕ → Except String AgentResponse`, one
result per step index, `Except.error` standing for a raised exception. -/

/-- The fields of an agent's `AgentResponse` that the executor reads. -/
structure AgentResponse where
  success : Bool
  content : String
  confidence_score : ℚ
deriving DecidableEq

/-- One entry of the step ledger (`_create_step_record`, lines 677-687). -/
structure StepRecord where
  step : String
  agent : String
  output : String
  confidence : ℚ
deriving DecidableEq

/-- The step ledger and aggregates accumulated by
`_execute_comprehensive_multi_agent_workflow`. -/
structure WorkflowResults where
  workflow_type : String
  steps : List StepRecord
  agents_used : List String
  confidence_scores : List ℚ
  overall_confidence : ℚ
  success : Bool
deriving DecidableEq

/-- The value surfaced to the caller: either the workflow results or the
error response built by `_create_error_response`, which holds only the
message. -/
inductive WorkflowOutput where
  | ok (results : WorkflowResults)
  | error (error_message : String)
deriving DecidableEq

/-- The six steps of the comprehensive multi-agent workflow, in order
(lines 538-578). -/
def comprehensiveStepPlan : List (String × String) :=
  [("prompt_enhancement", "AugmentedPromptAgent"),
   ("knowledge_enhancement", "KnowledgeAugmentedPromptAgent"),
   ("rag_knowledge_retrieval", "RAGKnowledgePromptAgent"),
   ("project_management_analysis", "ProjectManagerAgent"),
   ("action_planning", "ActionPlanningAgent"),
   ("quality_evaluation", "EvaluationAgent")]

/-- Sequential step execution: each step invokes its provider and appends a
step record; a raised exception propagates immediately, skipping every
remaining step (and losing the records accumulated so far, which live in a
local variable of the aborted call). -/
def executeSteps (invoke : ℕ → Except String AgentResponse) :
    List (String × String) → ℕ → Except String (List StepRecord)
  | [], _ => Except.ok []
  | (step_name, agent_name) :: rest, i =>
    match invoke i with
    | Except.error e => Except.error e
    | Except.ok resp =>
      match executeSteps invoke rest (i + 1) with
      | Except.error e => Except.error e
      | Except.ok records =>
        Except.ok (⟨step_name, agent_name, resp.content, resp.confidence_score⟩ :: records)

/-- `process_project_request` for the comprehensive branch: on success the
full results with the ledger, on a provider exception the error response
`"Workflow execution failed: " + str(e)` with no ledger. -/
def process_project_request (invoke : ℕ → Except String AgentResponse) : WorkflowOutput :=
  match executeSteps invoke comprehensiveStepPlan 0 with
  | Except.error e => WorkflowOutput.error ("Workflow execution failed: " ++ e)
  | Except.ok records =>
    WorkflowOutput.ok
      { workflow_type := "comprehensive_multi_agent",
        steps := records,
        agents_used := records.map (fun r => r.agent),
        confidence_scores := records.map (fun r => r.confidence),
        overall_confidence := calculate_workflow_confidence (records.map (fun r => r.confidence)),
        success := true }

lemma executeSteps_error (invoke : ℕ → Except String AgentResponse) (k : ℕ) (e : String)
    (hfail : invoke k = Except.error e) :
    ∀ (plan : List (String × String)) (n : ℕ),
    (∀ i, n ≤ i → i < k → ∃ r, invoke i = Except.ok r) →
    n ≤ k → k < n + plan.length →
    executeSteps invoke plan n = Except.error e := by
  intro plan
  induction plan with
  | nil =>
    intro n _ hnk hklen
    exfalso
    simp at hklen
    omega
  | cons head rest ih =>
    intro n hpre hnk hklen
    obtain ⟨step_name, agent_name⟩ := head
    by_cases hnkeq : n = k
    · subst hnkeq
      rw [executeSteps, hfail]
    · have hnlt : n < k := lt_of_le_of_ne hnk hnkeq
      obtain ⟨r, hr⟩ := hpre n (le_refl n) hnlt
      rw [executeSteps, hr]
      rw [ih (n + 1) (fun i hi1 hi2 => hpre i (le_of_lt hi1) hi2) hnlt
        (by simp at hklen; omega)]

lemma executeSteps_ok (invoke : ℕ → Except String AgentResponse) :
    ∀ (plan : List (String × String)) (n : ℕ),
    (∀ i, n ≤ i → i < n + plan.length → ∃ r, invoke i = Except.ok r) →
    ∃ records, executeSteps invoke plan n = Except.ok records ∧
      records.length = plan.length := by
  intro plan
  induction plan with
  | nil =>
    intro n _
    exact ⟨[], rfl, rfl⟩
  | cons head rest ih =>
    intro n hpre
    obtain ⟨step_name, agent_name⟩ := head
    obtain ⟨r, hr⟩ := hpre n (le_refl n) (by simp)
    obtain ⟨records, hrec, hlen⟩ := ih (n + 1)
      (fun i hi1 hi2 => hpre i (le_of_lt hi1) (by simp at hi2 ⊢; omega))
    refine ⟨⟨step_name, agent_name, r.content, r.confidence_score⟩ :: records, ?_, by simp [hlen]⟩
    rw [executeSteps, hr, hrec]

/-- Concrete provider run whose third step (index 2) raises. -/
def failingInvoke : ℕ → Except String AgentResponse :=
  fun i => if i < 2 then Except.ok ⟨true, "step output", 1/2⟩
    else Except.error "provider boom"

/-- C8 counterexample: with two successful steps and a provider exception at
step index 2, the caller receives only
`error "Workflow execution failed: provider boom"` — the error response of
`_create_error_response` carries no step ledger at all (its only payload is
the message), so the surfaced result does not include the two attempted
steps, refuting the claim. -/
theorem provider_failure_drops_partial_ledger_cex :
    process_project_request failingInvoke =
      WorkflowOutput.error "Workflow execution failed: provider boom" := by
  decide

/-- C8 (amended): when a provider raises at step `k` (all earlier steps
succeeding), the executor aborts the remaining steps without any internal
retry — the outcome is unchanged under any reinterpretation of the providers
after step `k` — and the caller receives the error response carrying only the
exception message; the partial step ledger is discarded, not surfaced. On a
fully successful run the surfaced ledger has one record per plan step. -/
theorem provider_failure_aborts_without_retry
    (invoke invoke2 : ℕ → Except String AgentResponse) (k : ℕ) (e : String)
    (hk : k < comprehensiveStepPlan.length)
    (hpre : ∀ i, i < k → ∃ r, invoke i = Except.ok r)
    (hfail : invoke k = Except.error e)
    (hagree : ∀ i, i ≤ k → invoke2 i = invoke i) :
    process_project_request invoke = WorkflowOutput.error ("Workflow execution failed: " ++ e) ∧
      process_project_request invoke2 =
        WorkflowOutput.error ("Workflow execution failed: " ++ e) := by
  have h1 : executeSteps invoke comprehensiveStepPlan 0 = Except.error e :=
    executeSteps_error invoke k e hfail comprehensiveStepPlan 0
      (fun i _ hik => hpre i hik) (Nat.zero_le k) (by omega)
  have h2 : executeSteps invoke2 comprehensiveStepPlan 0 = Except.error e :=
    executeSteps_error invoke2 k e (by rw [hagree k (le_refl k)]; exact hfail)
      comprehensiveStepPlan 0
      (fun i _ hik => by
        obtain ⟨r, hr⟩ := hpre i hik
        exact ⟨r, by rw [hagree i (le_of_lt hik)]; exact hr⟩)
      (Nat.zero_le k) (by omega)
  constructor
  · rw [process_project_request, h1]
  · rw [process_project_request, h2]

/-- Witness for C8 (amended) at `failingInvoke`, failing at step index 2. -/
theorem provider_failure_aborts_without_retry_witness :
    (2 < comprehensiveStepPlan.length ∧ failingInvoke 2 = Except.error "provider boom") ∧
      process_project_request failingInvoke =
        WorkflowOutput.error ("Workflow execution failed: " ++ "provider boom") := by
  refine ⟨⟨by decide, rfl⟩, ?_⟩
  exact (provider_failure_aborts_without_retry failingInvoke failingInvoke 2 "provider boom"
    (by decide)
    (fun i hi => ⟨⟨true, "step output", 1/2⟩, by
      rw [show failingInvoke i = if i < 2 then Except.ok ⟨true, "step output", 1/2⟩
        else Except.error "provider boom" from rfl, if_pos hi]⟩)
    rfl (fun i _ => rfl)).1

/-- C8 success-path complement: on a run where every provider succeeds, the
surfaced result is the full `WorkflowResults` whose ledger has exactly one
record per plan step. -/
theorem workflow_success_full_ledger (invoke : ℕ → Except String AgentResponse)
    (hok : ∀ i, i < comprehensiveStepPlan.length → ∃ r, invoke i = Except.ok r) :
    ∃ results, process_project_request invoke = WorkflowOutput.ok results ∧
      results.steps.length = comprehensiveStepPlan.length := by
  obtain ⟨records, hrec, hlen⟩ := executeSteps_ok invoke comprehensiveStepPlan 0
    (fun i _ hi2 => hok i (by simpa using hi2))
  refine ⟨⟨"comprehensive_multi_agent", records, records.map (fun r => r.agent),
    records.map (fun r => r.confidence),
    calculate_workflow_confidence (records.map (fun r => r.confidence)), true⟩, ?_, hlen⟩
  rw [process_project_request, hrec]
